import Mathlib

/-!
Verification of the portfolio simulation and metrics engine of
`crisis-investment` (src/main.py) against its specification.

The simulator side (`simulate_portfolio` and the validation that guards it
in the script body) works on exact rationals; a price table is modelled as
its list of rows (one row per trading date, one entry per ticker column),
exactly the grid a pandas DataFrame holds.  The metrics side
(`calculate_metrics`) is modelled over the reals because volatility and
Sharpe involve `sqrt`; an `Option ℝ` value whose `none` stands for an IEEE
non-finite float (NaN or ±infinity) models the places where pandas produces
such a value.
-/

namespace CrisisInvestment

/-- One row per trading date; each row lists the adjusted closes of the
tickers in column order, as a pandas DataFrame does. -/
abbrev PriceRows := List (List ℚ)

/-- `data / data.iloc[0]` of src/main.py line 23: divide every row of the
table elementwise by the first row.  On an empty table pandas would raise;
the script never reaches this call with one (line 97 stops first), and the
model returns the empty table there. -/
def normalize (rows : PriceRows) : PriceRows :=
  match rows with
  | [] => []
  | r0 :: _ => rows.map (fun r => List.zipWith (· / ·) r r0)

/-- `normalized * allocations` of src/main.py line 24: pandas broadcasts the
plain Python list of weights across each row by position. -/
def weight (allocations : List ℚ) (rows : PriceRows) : PriceRows :=
  rows.map (fun r => List.zipWith (· * ·) r allocations)

/-- `simulate_portfolio` of src/main.py lines 22-26:
`weighted.sum(axis=1) * initial_investment`. -/
def simulate_portfolio (data : PriceRows) (allocations : List ℚ)
    (initial_investment : ℚ) : List ℚ :=
  ((weight allocations (normalize data)).map (fun r => r.sum)).map
    (fun s => s * initial_investment)

theorem normalize_length (rows : PriceRows) :
    (normalize rows).length = rows.length := by
  cases rows with
  | nil => rfl
  | cons r0 rest => simp [normalize]

theorem simulate_portfolio_length (data : PriceRows) (allocations : List ℚ)
    (I : ℚ) : (simulate_portfolio data allocations I).length = data.length := by
  simp [simulate_portfolio, weight, normalize_length]

/-- Row-wise weighted sum written as an indexed sum over the columns. -/
theorem sum_zipWith_mul_div (w : List ℚ) :
    ∀ (a b : List ℚ), a.length = w.length → b.length = w.length →
      (List.zipWith (· * ·) (List.zipWith (· / ·) a b) w).sum =
        ∑ j ∈ Finset.range w.length,
          w.getD j 0 * (a.getD j 0 / b.getD j 0) := by
  induction w with
  | nil =>
    intro a b ha hb
    simp at ha hb
    simp [ha, hb]
  | cons w0 ws ih =>
    intro a b ha hb
    match a, b with
    | a0 :: as_, b0 :: bs =>
      simp only [List.length_cons, Nat.succ.injEq] at ha hb
      simp only [List.zipWith_cons_cons, List.sum_cons, List.length_cons]
      rw [Finset.sum_range_succ']
      simp only [List.getD_cons_succ, List.getD_cons_zero]
      rw [ih as_ bs ha hb]
      ring

/-- C1: on a nonempty table of positive prices with one weight per column,
`simulate_portfolio` returns one value per input date, and the value on
date `t` is `(Σ_j weight_j * (price[t,j] / price[0,j])) * I`. -/
theorem C1_simulate_formula (data : PriceRows) (allocations : List ℚ)
    (I : ℚ) (hne : data ≠ []) (hcols : 0 < allocations.length)
    (hlen : ∀ r ∈ data, r.length = allocations.length)
    (hpos : ∀ r ∈ data, ∀ x ∈ r, 0 < x) :
    (simulate_portfolio data allocations I).length = data.length ∧
    ∀ t, t < data.length →
      (simulate_portfolio data allocations I).getD t 0 =
        (∑ j ∈ Finset.range allocations.length,
          allocations.getD j 0 *
            ((data.getD t []).getD j 0 / (data.getD 0 []).getD j 0)) * I := by
  refine ⟨simulate_portfolio_length data allocations I, ?_⟩
  intro t ht
  match data, hne with
  | r0 :: rest, _ =>
    simp only [simulate_portfolio, weight, normalize, List.map_map]
    rw [List.getD_eq_getElem _ _ (by simpa using ht)]
    rw [List.getElem_map]
    simp only [Function.comp]
    have hmem : (r0 :: rest)[t] ∈ r0 :: rest := List.getElem_mem _
    have hlt : (r0 :: rest)[t].length = allocations.length :=
      hlen _ hmem
    have h0 : r0.length = allocations.length := hlen r0 (by simp)
    rw [sum_zipWith_mul_div allocations _ _ hlt h0]
    have : (r0 :: rest).getD t [] = (r0 :: rest)[t] :=
      List.getD_eq_getElem _ _ (by simpa using ht)
    rw [this]
    rfl

/-- Concrete run of C1 on a 2-date, 2-ticker table. -/
theorem C1_simulate_formula_witness :
    (([[(100 : ℚ), 50], [110, 45]] : PriceRows) ≠ [] ∧
      0 < ([(1 : ℚ)/2, 1/2] : List ℚ).length ∧
      (∀ r ∈ ([[(100 : ℚ), 50], [110, 45]] : PriceRows),
        r.length = ([(1 : ℚ)/2, 1/2] : List ℚ).length) ∧
      (∀ r ∈ ([[(100 : ℚ), 50], [110, 45]] : PriceRows), ∀ x ∈ r, 0 < x)) ∧
    ((simulate_portfolio [[100, 50], [110, 45]] [1/2, 1/2] 10000).length =
        ([[(100 : ℚ), 50], [110, 45]] : PriceRows).length ∧
      ∀ t, t < ([[(100 : ℚ), 50], [110, 45]] : PriceRows).length →
        (simulate_portfolio [[100, 50], [110, 45]] [1/2, 1/2] 10000).getD t 0 =
          (∑ j ∈ Finset.range ([(1 : ℚ)/2, 1/2] : List ℚ).length,
            ([(1 : ℚ)/2, 1/2] : List ℚ).getD j 0 *
              ((([[(100 : ℚ), 50], [110, 45]] : PriceRows).getD t []).getD j 0 /
                (([[(100 : ℚ), 50], [110, 45]] : PriceRows).getD 0 []).getD j 0)) *
            10000) :=
  ⟨⟨by decide, by decide, by decide, by decide⟩,
    C1_simulate_formula [[100, 50], [110, 45]] [1/2, 1/2] 10000
      (by decide) (by decide) (by decide) (by decide)⟩

/-- On the first date every price is divided by itself, so the row-wise
weighted sum collapses to the plain sum of the weights. -/
theorem sum_zipWith_self_div (r0 : List ℚ) :
    ∀ (alloc : List ℚ), r0.length = alloc.length → (∀ x ∈ r0, 0 < x) →
      (List.zipWith (· * ·) (List.zipWith (· / ·) r0 r0) alloc).sum =
        alloc.sum := by
  induction r0 with
  | nil =>
    intro alloc hlen _
    have halloc : alloc = [] := List.length_eq_zero.mp hlen.symm
    subst halloc
    simp
  | cons x xs ih =>
    intro alloc hlen hpos
    match alloc with
    | a0 :: as_ =>
      simp only [List.length_cons, Nat.succ.injEq] at hlen
      have hx : x ≠ 0 := ne_of_gt (hpos x (by simp))
      simp only [List.zipWith_cons_cons, List.sum_cons]
      rw [div_self hx, one_mul,
        ih as_ hlen (fun y hy => hpos y (List.mem_cons_of_mem _ hy))]

/-- C3 as stated is false: the allocation `[1/2, 1001/2000]` sums to
`1.0005`, inside the `1e-3` validation tolerance, yet the first portfolio
value is `10005`, which misses the initial investment `10000` by a relative
error of `5e-4`, far beyond `1e-9`. -/
theorem C3_counterexample :
    |([(1 : ℚ)/2, 1001/2000] : List ℚ).sum - 1| < 1/1000 ∧
    ¬ |(simulate_portfolio [[100, 100], [110, 99]] [1/2, 1001/2000]
          10000).headD 0 - 10000| ≤ (1/1000000000) * 10000 := by
  constructor
  · rw [abs_lt]
    refine ⟨by norm_num, by norm_num⟩
  · norm_num [simulate_portfolio, weight, normalize]

/-- C3 amended: the first value of the series is `(Σ weights) * I` exactly,
so it misses `I` by exactly `|Σ weights − 1| * |I|` — within the `1e-3`
weight-sum tolerance, not within `1e-9` — and it equals `I` exactly when
the weights sum to exactly 1. -/
theorem C3_first_value (rows : PriceRows) (alloc : List ℚ) (I : ℚ)
    (r0 : List ℚ) (h0 : rows.head? = some r0)
    (hlen : r0.length = alloc.length) (hpos : ∀ x ∈ r0, 0 < x) :
    (simulate_portfolio rows alloc I).headD 0 = alloc.sum * I ∧
    |(simulate_portfolio rows alloc I).headD 0 - I| = |alloc.sum - 1| * |I| ∧
    (alloc.sum = 1 → (simulate_portfolio rows alloc I).headD 0 = I) := by
  match rows, h0 with
  | r :: rest, h0 =>
    simp only [List.head?_cons, Option.some.injEq] at h0
    subst h0
    have hhead : (simulate_portfolio (r :: rest) alloc I).headD 0 =
        alloc.sum * I := by
      simp only [simulate_portfolio, weight, normalize, List.map_map,
        List.map_cons, List.headD_cons, Function.comp]
      rw [sum_zipWith_self_div r alloc hlen hpos]
    refine ⟨hhead, ?_, ?_⟩
    · rw [hhead, ← abs_mul]
      ring_nf
    · intro hsum
      rw [hhead, hsum, one_mul]

/-- Concrete run of the amended C3 on a table whose weights sum to 1. -/
theorem C3_first_value_witness :
    (([[(100 : ℚ), 50], [110, 45]] : PriceRows).head? = some [100, 50] ∧
      ([(100 : ℚ), 50] : List ℚ).length = ([(3 : ℚ)/4, 1/4] : List ℚ).length ∧
      (∀ x ∈ ([(100 : ℚ), 50] : List ℚ), 0 < x)) ∧
    ((simulate_portfolio [[100, 50], [110, 45]] [3/4, 1/4] 10000).headD 0 =
        ([(3 : ℚ)/4, 1/4] : List ℚ).sum * 10000 ∧
      |(simulate_portfolio [[100, 50], [110, 45]] [3/4, 1/4] 10000).headD 0 -
          10000| = |([(3 : ℚ)/4, 1/4] : List ℚ).sum - 1| * |(10000 : ℚ)| ∧
      (([(3 : ℚ)/4, 1/4] : List ℚ).sum = 1 →
        (simulate_portfolio [[100, 50], [110, 45]] [3/4, 1/4] 10000).headD 0 =
          10000)) :=
  ⟨⟨by decide, by decide, by decide⟩,
    C3_first_value [[100, 50], [110, 45]] [3/4, 1/4] 10000 [100, 50]
      (by decide) (by decide) (by decide)⟩

/-- A price table as the script sees it: the selected ticker symbols
(column labels) and the rows of adjusted closes. -/
structure PriceTable where
  tickers : List String
  rows : PriceRows

/-- The distinct user-facing failures of the script before and instead of a
simulation: the `st.error`/`st.stop` for allocations (src/main.py lines
82-88) and the empty-data stop (lines 97-99). -/
inductive SimError where
  | invalidAllocation : SimError
  | emptyPriceData : SimError
deriving DecidableEq

/-- The script's path from validated inputs to `simulate_portfolio`
(src/main.py lines 82-101): reject a weight count different from the ticker
count, then weights whose sum misses 1 by at least `1e-3`
(`not abs(sum(allocations) - 1) < 1e-3`), then an empty table
(`data.empty`, i.e. zero rows or zero columns), and only then simulate. -/
def run_simulation (table : PriceTable) (allocations : List ℚ)
    (initial_investment : ℚ) : Except SimError (List ℚ) :=
  if allocations.length ≠ table.tickers.length then
    .error .invalidAllocation
  else if ¬ |allocations.sum - 1| < 1/1000 then
    .error .invalidAllocation
  else if table.rows = [] ∨ table.tickers = [] then
    .error .emptyPriceData
  else
    .ok (simulate_portfolio table.rows allocations initial_investment)

/-- C4: the script rejects a weight count different from the ticker count
and a weight sum outside the tolerance with the allocation error, rejects
an empty table (on otherwise valid allocations) with the empty-data error,
and returns no series in any of those cases. -/
theorem C4_validation (table : PriceTable) (allocations : List ℚ) (I : ℚ) :
    (allocations.length ≠ table.tickers.length ∨
        ¬ |allocations.sum - 1| < 1/1000 →
      run_simulation table allocations I = .error .invalidAllocation) ∧
    (allocations.length = table.tickers.length →
      |allocations.sum - 1| < 1/1000 →
      table.rows = [] ∨ table.tickers = [] →
      run_simulation table allocations I = .error .emptyPriceData) ∧
    (allocations.length ≠ table.tickers.length ∨
        ¬ |allocations.sum - 1| < 1/1000 ∨
        table.rows = [] ∨ table.tickers = [] →
      ∀ series, run_simulation table allocations I ≠ .ok series) := by
  refine ⟨?_, ?_, ?_⟩
  · rintro (hcount | hsum)
    · simp only [run_simulation]
      rw [if_pos hcount]
    · by_cases hc : allocations.length ≠ table.tickers.length
      · simp only [run_simulation]
        rw [if_pos hc]
      · simp only [run_simulation]
        rw [if_neg hc, if_pos hsum]
  · intro hcount hsum hempty
    simp only [run_simulation]
    rw [if_neg (not_not_intro hcount), if_neg (not_not_intro hsum),
      if_pos hempty]
  · intro hbad series
    by_cases hc : allocations.length ≠ table.tickers.length
    · simp only [run_simulation]
      rw [if_pos hc]
      simp
    · by_cases hs : |allocations.sum - 1| < 1/1000
      · rcases hbad with hbad | hbad | hbad | hbad
        · exact absurd hbad hc
        · exact absurd hs hbad
        · simp only [run_simulation]
          rw [if_neg hc, if_neg (not_not_intro hs), if_pos (Or.inl hbad)]
          simp
        · simp only [run_simulation]
          rw [if_neg hc, if_neg (not_not_intro hs), if_pos (Or.inr hbad)]
          simp
      · simp only [run_simulation]
        rw [if_neg hc, if_pos hs]
        simp

/-- Concrete rejections: a weight list of the wrong length, weights summing
to 0.9, and an empty table each fail without producing a series. -/
theorem C4_validation_witness :
    ((([(1 : ℚ)/2] : List ℚ).length ≠
        (PriceTable.mk ["AAPL", "MSFT"] [[100, 50], [110, 45]]).tickers.length ∨
      ¬ |([(1 : ℚ)/2] : List ℚ).sum - 1| < 1/1000) ∧
      run_simulation (PriceTable.mk ["AAPL", "MSFT"] [[100, 50], [110, 45]])
        [1/2] 10000 = .error .invalidAllocation) ∧
    (¬ |([(1 : ℚ)/2, 2/5] : List ℚ).sum - 1| < 1/1000 ∧
      run_simulation (PriceTable.mk ["AAPL", "MSFT"] [[100, 50], [110, 45]])
        [1/2, 2/5] 10000 = .error .invalidAllocation) ∧
    ((PriceTable.mk ["AAPL", "MSFT"] ([] : PriceRows)).rows = [] ∨
        (PriceTable.mk ["AAPL", "MSFT"] ([] : PriceRows)).tickers = []) ∧
    run_simulation (PriceTable.mk ["AAPL", "MSFT"] ([] : PriceRows))
      [1/2, 1/2] 10000 = .error .emptyPriceData := by
  have hsum : ¬ |([(1 : ℚ)/2, 2/5] : List ℚ).sum - 1| < 1/1000 := by
    rw [abs_lt]
    norm_num
  refine ⟨⟨Or.inl (by decide), ?_⟩, ⟨hsum, ?_⟩, Or.inl rfl, ?_⟩
  · exact (C4_validation (PriceTable.mk ["AAPL", "MSFT"]
      [[100, 50], [110, 45]]) [1/2] 10000).1 (Or.inl (by decide))
  · exact (C4_validation (PriceTable.mk ["AAPL", "MSFT"]
      [[100, 50], [110, 45]]) [1/2, 2/5] 10000).1 (Or.inr hsum)
  · exact (C4_validation (PriceTable.mk ["AAPL", "MSFT"] ([] : PriceRows))
      [1/2, 1/2] 10000).2.1 (by decide)
      (by rw [abs_lt]; norm_num) (Or.inl rfl)

/-- An AllocationSet in the spec's sense: (ticker, weight) pairs.  The code
never reads the tickers — `normalized * allocations` at src/main.py line 24
broadcasts the bare weight list across the columns by position — so running
the simulator on such a set uses only the weights in their given order. -/
def simulate_with_allocation_set (data : PriceRows)
    (alloc : List (String × ℚ)) (I : ℚ) : List ℚ :=
  simulate_portfolio data (alloc.map Prod.snd) I

/-- C7 as stated is false: reordering the pairs `("A", 1), ("B", 0)` into
`("B", 0), ("A", 1)` keeps the ticker-to-weight mapping but swaps which
column each weight multiplies, and the two runs differ on the second date
(factor 11/10 versus 1/2). -/
theorem C7_counterexample :
    List.Perm [("A", (1 : ℚ)), ("B", 0)] [("B", (0 : ℚ)), ("A", 1)] ∧
    simulate_with_allocation_set [[100, 200], [110, 100]]
        [("A", 1), ("B", 0)] 1 ≠
      simulate_with_allocation_set [[100, 200], [110, 100]]
        [("B", 0), ("A", 1)] 1 := by
  constructor
  · exact List.Perm.swap ("B", (0 : ℚ)) ("A", 1) []
  · intro h
    have := congrArg (fun l => l.getD 1 0) h
    norm_num [simulate_with_allocation_set, simulate_portfolio, weight,
      normalize] at this

/-- C7 amended: each weight is paired with the price column at the same
position, so the series depends only on the positional sequence of weights;
reordering the (ticker, weight) pairs preserves the series exactly when it
preserves that weight sequence. -/
theorem C7_positional_pairing (data : PriceRows)
    (a1 a2 : List (String × ℚ)) (I : ℚ)
    (h : a1.map Prod.snd = a2.map Prod.snd) :
    simulate_with_allocation_set data a1 I =
      simulate_with_allocation_set data a2 I := by
  simp only [simulate_with_allocation_set, h]

/-- Concrete run of the amended C7: renaming tickers without touching the
weight sequence leaves the series unchanged. -/
theorem C7_positional_pairing_witness :
    ([("A", (1 : ℚ)/2), ("B", 1/2)] : List (String × ℚ)).map Prod.snd =
      ([("MSFT", (1 : ℚ)/2), ("AAPL", 1/2)] : List (String × ℚ)).map
        Prod.snd ∧
    simulate_with_allocation_set [[100, 200], [110, 100]]
        [("A", 1/2), ("B", 1/2)] 1000 =
      simulate_with_allocation_set [[100, 200], [110, 100]]
        [("MSFT", 1/2), ("AAPL", 1/2)] 1000 :=
  ⟨rfl, C7_positional_pairing [[100, 200], [110, 100]]
    [("A", 1/2), ("B", 1/2)] [("MSFT", 1/2), ("AAPL", 1/2)] 1000 rfl⟩

/-- Multiply the entry at position `j` of a row by `C`: the effect of
scaling one ticker's price column on each row of the table. -/
def scaleAt (j : ℕ) (C : ℚ) : List ℚ → List ℚ
  | [] => []
  | x :: xs =>
    match j with
    | 0 => C * x :: xs
    | j' + 1 => x :: scaleAt j' C xs

/-- Multiply every price in the `j`-th ticker column by `C`. -/
def scale_column (j : ℕ) (C : ℚ) (rows : PriceRows) : PriceRows :=
  rows.map (scaleAt j C)

/-- Scaling both operands of the elementwise row-by-first-row division at
the same position cancels. -/
theorem zipWith_div_scaleAt (C : ℚ) (hC : C ≠ 0) :
    ∀ (j : ℕ) (a b : List ℚ),
      List.zipWith (· / ·) (scaleAt j C a) (scaleAt j C b) =
        List.zipWith (· / ·) a b := by
  intro j a
  induction a generalizing j with
  | nil =>
    intro b
    simp [scaleAt]
  | cons x xs ih =>
    intro b
    match b with
    | [] => cases j <;> simp [scaleAt]
    | y :: ys =>
      match j with
      | 0 =>
        simp only [scaleAt, List.zipWith_cons_cons]
        rw [mul_div_mul_left _ _ hC]
      | j' + 1 =>
        simp only [scaleAt, List.zipWith_cons_cons]
        rw [ih j' ys]

/-- Normalization divides out any positive scaling of a single column. -/
theorem normalize_scale_column (j : ℕ) (C : ℚ) (hC : C ≠ 0)
    (rows : PriceRows) :
    normalize (scale_column j C rows) = normalize rows := by
  match rows with
  | [] => rfl
  | r0 :: rest =>
    simp only [normalize, scale_column, List.map_cons, List.map_map]
    congr 1
    · exact zipWith_div_scaleAt C hC j r0 r0
    · congr 1
      funext r
      exact zipWith_div_scaleAt C hC j r r0

/-- C9: multiplying every price in one ticker's column by a positive
constant leaves the portfolio series unchanged. -/
theorem C9_scale_invariance (data : PriceRows) (alloc : List ℚ) (I : ℚ)
    (j : ℕ) (C : ℚ) (hC : 0 < C) :
    simulate_portfolio (scale_column j C data) alloc I =
      simulate_portfolio data alloc I := by
  simp only [simulate_portfolio]
  rw [normalize_scale_column j C (ne_of_gt hC) data]

/-- Concrete run of C9: doubling the second column's prices changes
nothing. -/
theorem C9_scale_invariance_witness :
    (0 : ℚ) < 2 ∧
    simulate_portfolio (scale_column 1 2 [[100, 50], [110, 45]])
        [1/2, 1/2] 10000 =
      simulate_portfolio [[100, 50], [110, 45]] [1/2, 1/2] 10000 :=
  ⟨by norm_num,
    C9_scale_invariance [[100, 50], [110, 45]] [1/2, 1/2] 10000 1 2
      (by norm_num)⟩

/-- The simulated series is linear in the investment amount: scaling the
investment scales every value. -/
theorem simulate_portfolio_smul (data : PriceRows) (alloc : List ℚ)
    (c I : ℚ) :
    simulate_portfolio data alloc (c * I) =
      (simulate_portfolio data alloc I).map (fun v => c * v) := by
  simp only [simulate_portfolio, List.map_map]
  congr 1
  funext r
  simp only [Function.comp]
  ring

/-- The "Buy More" button of src/main.py lines 130-133: add 1000 to the
investment amount and re-run the whole simulation. -/
def buy_more (data : PriceRows) (alloc : List ℚ) (I : ℚ) : List ℚ :=
  simulate_portfolio data alloc (I + 1000)

/-- C10: the series is homogeneous in the initial investment, and the
"Buy More" action therefore rescales the entire trajectory by
`(I + 1000) / I` from the first date instead of adding 1000 dollars at the
current date. -/
theorem C10_homogeneous (data : PriceRows) (alloc : List ℚ) (I c : ℚ)
    (hc : 0 < c) (hI : I ≠ 0) :
    simulate_portfolio data alloc (c * I) =
      (simulate_portfolio data alloc I).map (fun v => c * v) ∧
    buy_more data alloc I =
      (simulate_portfolio data alloc I).map
        (fun v => ((I + 1000) / I) * v) := by
  refine ⟨simulate_portfolio_smul data alloc c I, ?_⟩
  simp only [buy_more]
  have h := simulate_portfolio_smul data alloc ((I + 1000) / I) I
  rw [div_mul_cancel₀ _ hI] at h
  exact h

/-- Concrete run of C10 with `c = 2` and `I = 1000`. -/
theorem C10_homogeneous_witness :
    ((0 : ℚ) < 2 ∧ (1000 : ℚ) ≠ 0) ∧
    (simulate_portfolio [[100, 50], [110, 45]] [1/2, 1/2]
        ((2 : ℚ) * 1000) =
      (simulate_portfolio [[100, 50], [110, 45]] [1/2, 1/2] 1000).map
        (fun v => 2 * v) ∧
    buy_more [[100, 50], [110, 45]] [1/2, 1/2] 1000 =
      (simulate_portfolio [[100, 50], [110, 45]] [1/2, 1/2] 1000).map
        (fun v => (((1000 : ℚ) + 1000) / 1000) * v)) :=
  ⟨⟨by norm_num, by norm_num⟩,
    C10_homogeneous [[100, 50], [110, 45]] [1/2, 1/2] 1000 2
      (by norm_num) (by norm_num)⟩

/-!
The metrics side.  `calculate_metrics` (src/main.py lines 28-34) works on a
pandas Series of floats; it is modelled over ℝ, with `Option ℝ` in the
places where pandas can produce an IEEE non-finite value: `none` stands for
NaN or ±infinity.  The model covers series of positive values (dollar
trajectories built from positive prices, as the data model guarantees), so
no division inside `pct_change`, the total return or the drawdowns hits a
zero denominator.
-/

/-- `portfolio.pct_change()` (src/main.py line 29): `v_t / v_{t-1} - 1`
elementwise, with NaN at the first position which has no predecessor. -/
noncomputable def pct_change (xs : List ℝ) : List (Option ℝ) :=
  match xs with
  | [] => []
  | _ :: _ =>
    none :: List.zipWith (fun prev cur => some (cur / prev - 1)) xs xs.tail

/-- `.dropna()`: keep the non-NaN entries. -/
def dropna (xs : List (Option ℝ)) : List ℝ :=
  xs.filterMap id

/-- `Series.mean()`: NaN on an empty series. -/
noncomputable def series_mean (xs : List ℝ) : Option ℝ :=
  if xs.length = 0 then none else some (xs.sum / xs.length)

/-- `Series.std()` with pandas' default `ddof = 1`: the sample standard
deviation with the `N - 1` denominator, NaN on fewer than two
observations. -/
noncomputable def series_std (xs : List ℝ) : Option ℝ :=
  if xs.length ≤ 1 then none
  else some (Real.sqrt
    ((xs.map (fun x => (x - xs.sum / xs.length) ^ 2)).sum /
      ((xs.length : ℝ) - 1)))

/-- `returns.mean() / returns.std() * (252 ** 0.5)` (src/main.py line 32):
NaN when the returns series is empty (NaN/NaN), NaN when it has a single
observation (its std is NaN), and non-finite (NaN or ±infinity) when its
std is zero. -/
noncomputable def sharpe_calc (returns : List ℝ) : Option ℝ :=
  match series_mean returns, series_std returns with
  | some m, some s => if s = 0 then none else some (m / s * Real.sqrt 252)
  | _, _ => none

/-- `portfolio.cummax()`: the running maximum of the series. -/
noncomputable def cummax : List ℝ → List ℝ
  | [] => []
  | x :: xs => x :: (cummax xs).map (max x)

/-- `(portfolio / portfolio.cummax()) - 1` (src/main.py line 33). -/
noncomputable def drawdowns (p : List ℝ) : List ℝ :=
  List.zipWith (fun v m => v / m - 1) p (cummax p)

/-- `Series.min()`: NaN on an empty series. -/
noncomputable def series_min : List ℝ → Option ℝ
  | [] => none
  | x :: xs => some (xs.foldl min x)

/-- The four scalars returned by `calculate_metrics`; the two that can come
out non-finite are `Option`-valued. -/
structure MetricsReport where
  total_return : ℝ
  volatility : Option ℝ
  sharpe_ratio : Option ℝ
  max_drawdown : ℝ

/-- `calculate_metrics` of src/main.py lines 28-34, field by field.  On an
empty series `portfolio.iloc[-1]` raises, modelled as `none`; on a nonempty
series the drawdown list is nonempty, so the `getD` default of the final
`.min()` is never taken. -/
noncomputable def calculate_metrics (portfolio : List ℝ) :
    Option MetricsReport :=
  match portfolio with
  | [] => none
  | v0 :: rest =>
    some {
      total_return := (v0 :: rest).getLastD 0 / v0 - 1
      volatility := (series_std (dropna (pct_change (v0 :: rest)))).map
        (fun s => s * Real.sqrt 252)
      sharpe_ratio := sharpe_calc (dropna (pct_change (v0 :: rest)))
      max_drawdown := (series_min (drawdowns (v0 :: rest))).getD 0 }

/-- C5 as stated is false: on the single-observation series `[100]` the
code does not fail; it returns a full report with zero total return, zero
max drawdown and NaN volatility and Sharpe. -/
theorem C5_counterexample :
    calculate_metrics [(100 : ℝ)] =
      some ⟨0, none, none, 0⟩ := by
  simp only [calculate_metrics, pct_change, dropna, series_std, sharpe_calc,
    series_mean, drawdowns, cummax, series_min, List.tail_cons,
    List.zipWith_nil_right, List.filterMap_cons_none, List.filterMap_nil,
    List.length_nil, List.map_nil, List.zipWith_cons_cons,
    List.zipWith_nil_left, List.foldl_nil, List.getLastD_cons, List.getLastD_nil]
  norm_num

/-- C5 amended: `calculate_metrics` fails only on an empty series (where
`iloc` raises); on a single observation it still returns a report, with
total return 0, max drawdown 0, and NaN volatility and Sharpe. -/
theorem C5_single_point (v : ℝ) (hv : 0 < v) :
    calculate_metrics [v] = some ⟨0, none, none, 0⟩ ∧
    calculate_metrics ([] : List ℝ) = none := by
  constructor
  · simp only [calculate_metrics, pct_change, dropna, series_std,
      sharpe_calc, series_mean, drawdowns, cummax, series_min,
      List.tail_cons, List.zipWith_nil_right, List.filterMap_cons_none,
      List.filterMap_nil, List.length_nil, List.map_nil,
      List.zipWith_cons_cons, List.zipWith_nil_left, List.foldl_nil,
      List.getLastD_cons, List.getLastD_nil]
    rw [div_self (ne_of_gt hv)]
    norm_num
  · rfl

/-- Concrete run of the amended C5 at `v = 100`. -/
theorem C5_single_point_witness :
    (0 : ℝ) < 100 ∧
    (calculate_metrics [(100 : ℝ)] = some ⟨0, none, none, 0⟩ ∧
      calculate_metrics ([] : List ℝ) = none) :=
  ⟨by norm_num, C5_single_point 100 (by norm_num)⟩

theorem zipWith_replicate_pred {α β : Type} (f : α → α → β) (a : α) :
    ∀ n : ℕ, List.zipWith f (List.replicate n a) (List.replicate (n - 1) a) =
      List.replicate (n - 1) (f a a) := by
  intro n
  induction n with
  | zero => simp
  | succ m ih =>
    cases m with
    | zero => simp
    | succ k =>
      simp only [List.replicate_succ, Nat.add_sub_cancel,
        List.zipWith_cons_cons] at *
      rw [ih]

theorem zipWith_replicate_same {α β : Type} (f : α → α → β) (a b : α)
    (n : ℕ) : List.zipWith f (List.replicate n a) (List.replicate n b) =
      List.replicate n (f a b) := by
  induction n with
  | zero => rfl
  | succ m ih => simp only [List.replicate_succ, List.zipWith_cons_cons, ih]

theorem filterMap_id_replicate_some (c : ℝ) (m : ℕ) :
    (List.replicate m (some c)).filterMap id = List.replicate m c := by
  induction m with
  | zero => rfl
  | succ k ih =>
    simp only [List.replicate_succ, List.filterMap_cons, id, ih]

theorem dropna_pct_change_replicate (V : ℝ) (n : ℕ) (hn : 1 ≤ n) :
    dropna (pct_change (List.replicate n V)) =
      List.replicate (n - 1) (V / V - 1) := by
  match n, hn with
  | m + 1, _ =>
    have hrep : List.replicate (m + 1) V = V :: List.replicate m V :=
      List.replicate_succ V m
    simp only [pct_change, hrep, List.tail_cons]
    rw [show V :: List.replicate m V = List.replicate (m + 1) V from
      hrep.symm,
      show List.replicate m V = List.replicate ((m + 1) - 1) V by simp,
      zipWith_replicate_pred (fun prev cur => some (cur / prev - 1)) V
        (m + 1)]
    simp only [dropna, List.filterMap_cons_none, Nat.add_sub_cancel]
    exact filterMap_id_replicate_some _ m

theorem cummax_replicate (V : ℝ) (n : ℕ) :
    cummax (List.replicate n V) = List.replicate n V := by
  induction n with
  | zero => rfl
  | succ m ih =>
    simp only [List.replicate_succ, cummax, ih, List.map_replicate,
      max_self]

theorem drawdowns_replicate (V : ℝ) (n : ℕ) :
    drawdowns (List.replicate n V) = List.replicate n (V / V - 1) := by
  simp only [drawdowns, cummax_replicate]
  exact zipWith_replicate_same _ V V n

theorem foldl_min_replicate (c : ℝ) (m : ℕ) :
    (List.replicate m c).foldl min c = c := by
  induction m with
  | zero => rfl
  | succ k ih => simp only [List.replicate_succ, List.foldl_cons, min_self, ih]

theorem getLastD_replicate (V : ℝ) :
    ∀ (n : ℕ) (d : ℝ), 1 ≤ n → (List.replicate n V).getLastD d = V := by
  intro n
  induction n with
  | zero => intro d h; omega
  | succ m ih =>
    intro d _
    cases m with
    | zero => rfl
    | succ k =>
      rw [List.replicate_succ, List.getLastD_cons]
      exact ih V (by omega)

theorem series_mean_replicate_zero (m : ℕ) (hm : 1 ≤ m) :
    series_mean (List.replicate m (0 : ℝ)) = some 0 := by
  rw [series_mean, if_neg (by simp; omega)]
  simp

theorem series_std_replicate_zero (m : ℕ) :
    series_std (List.replicate m (0 : ℝ)) =
      if m ≤ 1 then none else some 0 := by
  by_cases hm : m ≤ 1
  · rw [series_std, if_pos (by simpa using hm), if_pos hm]
  · rw [series_std, if_neg (by simpa using hm), if_neg hm]
    have : ((List.replicate m (0 : ℝ)).map
        (fun x => (x - (List.replicate m (0 : ℝ)).sum /
          (List.replicate m (0 : ℝ)).length) ^ 2)).sum = 0 := by
      simp
    rw [this]
    simp [Real.sqrt_eq_zero']

/-- What the code returns on a constant positive series: total return 0,
max drawdown 0, NaN Sharpe, and a volatility that is NaN for a 2-point
series but the number 0 from 3 points on. -/
theorem calculate_metrics_replicate (V : ℝ) (n : ℕ) (hV : 0 < V)
    (hn : 2 ≤ n) :
    calculate_metrics (List.replicate n V) =
      some ⟨0, if n = 2 then none else some 0, none, 0⟩ := by
  have hV' : V ≠ 0 := ne_of_gt hV
  have hdiv : V / V - 1 = 0 := by rw [div_self hV', sub_self]
  match n, hn with
  | m + 2, _ =>
    have hrep : List.replicate (m + 2) V = V :: List.replicate (m + 1) V :=
      List.replicate_succ V (m + 1)
    have hret : dropna (pct_change (List.replicate (m + 2) V)) =
        List.replicate (m + 1) (0 : ℝ) := by
      rw [dropna_pct_change_replicate V (m + 2) (by omega)]
      simp [hdiv]
    have hdd : drawdowns (List.replicate (m + 2) V) =
        List.replicate (m + 2) (0 : ℝ) := by
      rw [drawdowns_replicate, hdiv]
    have hmin : series_min (List.replicate (m + 2) (0 : ℝ)) = some 0 := by
      rw [List.replicate_succ, series_min, foldl_min_replicate]
    have hlast : (List.replicate (m + 2) V).getLastD 0 = V :=
      getLastD_replicate V (m + 2) 0 (by omega)
    have hsharpe : sharpe_calc (List.replicate (m + 1) (0 : ℝ)) = none := by
      rw [sharpe_calc, series_mean_replicate_zero (m + 1) (by omega),
        series_std_replicate_zero (m + 1)]
      by_cases hm : m = 0
      · subst hm
        simp
      · rw [if_neg (by omega)]
        simp
    rw [hrep]
    simp only [calculate_metrics]
    rw [← hrep, hret, hdd, hmin, hlast, hsharpe,
      series_std_replicate_zero (m + 1)]
    by_cases hm : m = 0
    · subst hm
      simp [hdiv]
    · rw [if_neg (show ¬ m + 1 ≤ 1 by omega),
        if_neg (show ¬ m + 2 = 2 by omega)]
      simp [hdiv]

/-- C6 as stated is false at the spec's own scenario: on the constant
series `[100, 100, 100]` the volatility comes out as the number `0`
(the sample standard deviation of the period returns `[0, 0]` is `0`,
not NaN), while the Sharpe ratio is NaN, max drawdown is `0` and total
return is `0`. -/
theorem C6_counterexample :
    calculate_metrics [(100 : ℝ), 100, 100] = some ⟨0, some 0, none, 0⟩ := by
  have h : [(100 : ℝ), 100, 100] = List.replicate 3 (100 : ℝ) := rfl
  rw [h, calculate_metrics_replicate 100 3 (by norm_num) (by norm_num)]
  norm_num

/-- C6 amended: on a constant positive series of length at least 2 the
code does not crash; total return and max drawdown are 0 and the Sharpe
ratio is NaN, but the volatility is NaN only for a 2-point series (a
single period return) and is the number 0 for length at least 3. -/
theorem C6_constant_series (V : ℝ) (n : ℕ) (hV : 0 < V) (hn : 2 ≤ n) :
    calculate_metrics (List.replicate n V) =
      some ⟨0, if n = 2 then none else some 0, none, 0⟩ :=
  calculate_metrics_replicate V n hV hn

/-- Concrete run of the amended C6 on a constant 4-point series. -/
theorem C6_constant_series_witness :
    ((0 : ℝ) < 100 ∧ 2 ≤ 4) ∧
    calculate_metrics (List.replicate 4 (100 : ℝ)) =
      some ⟨0, if 4 = 2 then none else some 0, none, 0⟩ :=
  ⟨⟨by norm_num, by norm_num⟩,
    C6_constant_series 100 4 (by norm_num) (by norm_num)⟩

/-- The spec's period-return series: `r_t = v_t / v_{t-1} - 1` for each
consecutive pair of dates (the first date has none). -/
noncomputable def spec_period_returns (p : List ℝ) : List ℝ :=
  List.zipWith (fun prev cur => cur / prev - 1) p p.tail

/-- The spec's mean of a return series. -/
noncomputable def spec_mean (xs : List ℝ) : ℝ :=
  xs.sum / xs.length

/-- The spec's sample standard deviation, with the `N − 1` denominator. -/
noncomputable def spec_sample_std (xs : List ℝ) : ℝ :=
  Real.sqrt ((xs.map (fun x => (x - spec_mean xs) ^ 2)).sum /
    ((xs.length : ℝ) - 1))

theorem filterMap_id_zipWith_some (f : ℝ → ℝ → ℝ) :
    ∀ (a b : List ℝ),
      (List.zipWith (fun x y => some (f x y)) a b).filterMap id =
        List.zipWith f a b := by
  intro a
  induction a with
  | nil => intro b; rfl
  | cons x xs ih =>
    intro b
    cases b with
    | nil => rfl
    | cons y ys =>
      simp only [List.zipWith_cons_cons, List.filterMap_cons, id, ih]

/-- `pct_change().dropna()` is exactly the spec's period-return series. -/
theorem dropna_pct_change (p : List ℝ) :
    dropna (pct_change p) = spec_period_returns p := by
  cases p with
  | nil => rfl
  | cons v0 rest =>
    simp only [pct_change, dropna, List.filterMap_cons_none, List.tail_cons]
    exact filterMap_id_zipWith_some _ (v0 :: rest) rest

/-- `Series.std()` is the spec's sample standard deviation where the latter
is defined (two or more observations), and NaN otherwise. -/
theorem series_std_eq (xs : List ℝ) :
    series_std xs =
      if xs.length ≤ 1 then none else some (spec_sample_std xs) :=
  rfl

theorem series_mean_eq (xs : List ℝ) :
    series_mean xs =
      if xs.length = 0 then none else some (spec_mean xs) :=
  rfl

theorem spec_period_returns_length (p : List ℝ) :
    (spec_period_returns p).length = p.length - 1 := by
  simp only [spec_period_returns, List.length_zipWith, List.length_tail]
  omega

/-- C2: on a series of at least two positive values, total return is
`last/first − 1`; with at least three points (so the sample standard
deviation of the returns is defined) the volatility is the sample standard
deviation (`N − 1` denominator) of the period returns times `sqrt 252`, and
the Sharpe ratio is `mean/std * sqrt 252` with no risk-free-rate
subtraction, NaN/±∞ when the std is zero; with exactly two points the std
of the single period return is undefined, and volatility and Sharpe are
both NaN. -/
theorem C2_metrics_formulas (p : List ℝ) (h2 : 2 ≤ p.length)
    (hpos : ∀ x ∈ p, 0 < x) :
    ∃ r, calculate_metrics p = some r ∧
      r.total_return = p.getLastD 0 / p.headD 0 - 1 ∧
      (3 ≤ p.length →
        r.volatility =
          some (spec_sample_std (spec_period_returns p) * Real.sqrt 252) ∧
        r.sharpe_ratio =
          (if spec_sample_std (spec_period_returns p) = 0 then none
            else some (spec_mean (spec_period_returns p) /
              spec_sample_std (spec_period_returns p) * Real.sqrt 252))) ∧
      (p.length = 2 → r.volatility = none ∧ r.sharpe_ratio = none) := by
  match p, h2 with
  | v0 :: v1 :: rest, _ =>
    refine ⟨_, rfl, rfl, ?_, ?_⟩
    · intro h3
      have hlen : (spec_period_returns (v0 :: v1 :: rest)).length =
          (v0 :: v1 :: rest).length - 1 :=
        spec_period_returns_length _
      have hgt : ¬ (spec_period_returns (v0 :: v1 :: rest)).length ≤ 1 := by
        rw [hlen]
        simp only [List.length_cons] at h3 ⊢
        omega
      have hne0 : ¬ (spec_period_returns (v0 :: v1 :: rest)).length = 0 := by
        omega
      constructor
      · show (series_std (dropna (pct_change (v0 :: v1 :: rest)))).map
            (fun s => s * Real.sqrt 252) = _
        rw [dropna_pct_change, series_std_eq, if_neg hgt, Option.map_some']
      · show sharpe_calc (dropna (pct_change (v0 :: v1 :: rest))) = _
        rw [sharpe_calc, dropna_pct_change, series_mean_eq, if_neg hne0,
          series_std_eq, if_neg hgt]
    · intro hlen2
      have hrest : rest = [] := by
        simp only [List.length_cons] at hlen2
        exact List.length_eq_zero.mp (by omega)
      subst hrest
      have hone : (spec_period_returns [v0, v1]).length ≤ 1 := by
        rw [spec_period_returns_length]
        simp
      constructor
      · show (series_std (dropna (pct_change [v0, v1]))).map
            (fun s => s * Real.sqrt 252) = _
        rw [dropna_pct_change, series_std_eq, if_pos hone, Option.map_none']
      · show sharpe_calc (dropna (pct_change [v0, v1])) = _
        rw [sharpe_calc, dropna_pct_change, series_std_eq, if_pos hone]
        rcases series_mean (spec_period_returns [v0, v1]) with _ | m <;> rfl

/-- Concrete run of C2 on the spec's scenario-1 portfolio values. -/
theorem C2_metrics_formulas_witness :
    (2 ≤ ([(10000 : ℝ), 11000, 9450] : List ℝ).length ∧
      (∀ x ∈ ([(10000 : ℝ), 11000, 9450] : List ℝ), 0 < x)) ∧
    (∃ r, calculate_metrics [(10000 : ℝ), 11000, 9450] = some r ∧
      r.total_return =
        ([(10000 : ℝ), 11000, 9450] : List ℝ).getLastD 0 /
          ([(10000 : ℝ), 11000, 9450] : List ℝ).headD 0 - 1 ∧
      (3 ≤ ([(10000 : ℝ), 11000, 9450] : List ℝ).length →
        r.volatility = some (spec_sample_std
          (spec_period_returns [(10000 : ℝ), 11000, 9450]) *
            Real.sqrt 252) ∧
        r.sharpe_ratio =
          (if spec_sample_std
              (spec_period_returns [(10000 : ℝ), 11000, 9450]) = 0 then none
            else some (spec_mean
                (spec_period_returns [(10000 : ℝ), 11000, 9450]) /
              spec_sample_std
                (spec_period_returns [(10000 : ℝ), 11000, 9450]) *
              Real.sqrt 252))) ∧
      (([(10000 : ℝ), 11000, 9450] : List ℝ).length = 2 →
        r.volatility = none ∧ r.sharpe_ratio = none)) :=
  ⟨⟨by norm_num, by intro x hx; simp only [List.mem_cons,
      List.not_mem_nil, or_false] at hx; rcases hx with rfl | rfl | rfl <;>
      norm_num⟩,
    C2_metrics_formulas [10000, 11000, 9450] (by norm_num)
      (by intro x hx; simp only [List.mem_cons, List.not_mem_nil,
        or_false] at hx; rcases hx with rfl | rfl | rfl <;> norm_num)⟩

/-- The maximum of a nonempty list (0 as the never-used base for []). -/
noncomputable def list_max : List ℝ → ℝ
  | [] => 0
  | x :: xs => xs.foldl max x

/-- The minimum of a nonempty list (0 as the never-used base for []). -/
noncomputable def list_min : List ℝ → ℝ
  | [] => 0
  | x :: xs => xs.foldl min x

theorem foldl_max_comm (l : List ℝ) :
    ∀ a b : ℝ, l.foldl max (max a b) = max a (l.foldl max b) := by
  induction l with
  | nil => intro a b; rfl
  | cons c cs ih =>
    intro a b
    simp only [List.foldl_cons]
    rw [max_assoc, ih]

theorem foldl_min_comm (l : List ℝ) :
    ∀ a b : ℝ, l.foldl min (min a b) = min a (l.foldl min b) := by
  induction l with
  | nil => intro a b; rfl
  | cons c cs ih =>
    intro a b
    simp only [List.foldl_cons]
    rw [min_assoc, ih]

theorem le_foldl_max (l : List ℝ) : ∀ b : ℝ, b ≤ l.foldl max b := by
  induction l with
  | nil => intro b; exact le_refl b
  | cons c cs ih =>
    intro b
    simp only [List.foldl_cons]
    rw [foldl_max_comm]
    exact le_max_left b _

theorem foldl_min_le (l : List ℝ) : ∀ b : ℝ, l.foldl min b ≤ b := by
  induction l with
  | nil => intro b; exact le_refl b
  | cons c cs ih =>
    intro b
    simp only [List.foldl_cons]
    rw [foldl_min_comm]
    exact min_le_left b _

theorem mem_le_foldl_max (l : List ℝ) :
    ∀ (b x : ℝ), x ∈ l → x ≤ l.foldl max b := by
  induction l with
  | nil => intro b x hx; cases hx
  | cons c cs ih =>
    intro b x hx
    simp only [List.foldl_cons]
    rcases List.mem_cons.mp hx with rfl | hx
    · calc x ≤ max b x := le_max_right b x
        _ ≤ cs.foldl max (max b x) := le_foldl_max cs _
    · exact ih (max b c) x hx

theorem foldl_min_le_mem (l : List ℝ) :
    ∀ (b x : ℝ), x ∈ l → l.foldl min b ≤ x := by
  induction l with
  | nil => intro b x hx; cases hx
  | cons c cs ih =>
    intro b x hx
    simp only [List.foldl_cons]
    rcases List.mem_cons.mp hx with rfl | hx
    · calc cs.foldl min (min b x) ≤ min b x := foldl_min_le cs _
        _ ≤ x := min_le_right b x
    · exact ih (min b c) x hx

theorem le_list_max (l : List ℝ) (x : ℝ) (hx : x ∈ l) : x ≤ list_max l := by
  cases l with
  | nil => cases hx
  | cons c cs =>
    rcases List.mem_cons.mp hx with rfl | hx
    · exact le_foldl_max cs x
    · exact mem_le_foldl_max cs c x hx

theorem list_min_le (l : List ℝ) (x : ℝ) (hx : x ∈ l) : list_min l ≤ x := by
  cases l with
  | nil => cases hx
  | cons c cs =>
    rcases List.mem_cons.mp hx with rfl | hx
    · exact foldl_min_le cs x
    · exact foldl_min_le_mem cs c x hx

theorem list_max_cons (x : ℝ) (l : List ℝ) (hl : l ≠ []) :
    list_max (x :: l) = max x (list_max l) := by
  match l, hl with
  | y :: ys, _ =>
    show (y :: ys).foldl max x = max x (ys.foldl max y)
    simp only [List.foldl_cons]
    exact foldl_max_comm ys x y

theorem cummax_length (p : List ℝ) : (cummax p).length = p.length := by
  induction p with
  | nil => rfl
  | cons x xs ih => simp [cummax, ih]

/-- The running maximum at position `t` is the maximum of the first `t + 1`
values. -/
theorem cummax_getD (p : List ℝ) :
    ∀ t : ℕ, t < p.length →
      (cummax p).getD t 0 = list_max (p.take (t + 1)) := by
  induction p with
  | nil => intro t ht; simp at ht
  | cons x xs ih =>
    intro t ht
    cases t with
    | zero => rfl
    | succ t' =>
      have ht' : t' < xs.length := by simpa using ht
      show ((cummax xs).map (max x)).getD t' 0 =
        list_max ((x :: xs).take (t' + 2))
      have hlen : t' < ((cummax xs).map (max x)).length := by
        rw [List.length_map, cummax_length]
        exact ht'
      rw [List.getD_eq_getElem _ _ hlen, List.getElem_map,
        ← List.getD_eq_getElem _ 0 (by rw [cummax_length]; exact ht'),
        ih t' ht', List.take_succ_cons,
        list_max_cons x (xs.take (t' + 1)) ?hne]
      case hne =>
        rw [Ne, List.take_eq_nil_iff]
        rintro (h | h)
        · exact absurd h (by omega)
        · rw [h] at ht'
          simp at ht'

theorem drawdowns_length (p : List ℝ) : (drawdowns p).length = p.length := by
  simp [drawdowns, List.length_zipWith, cummax_length]

theorem drawdowns_getD (p : List ℝ) (t : ℕ) (ht : t < p.length) :
    (drawdowns p).getD t 0 = p.getD t 0 / (cummax p).getD t 0 - 1 := by
  have h1 : t < (drawdowns p).length := by rw [drawdowns_length]; exact ht
  rw [List.getD_eq_getElem _ _ h1]
  simp only [drawdowns, List.getElem_zipWith]
  rw [← List.getD_eq_getElem p 0 ht,
    ← List.getD_eq_getElem (cummax p) 0 (by rw [cummax_length]; exact ht)]

/-- The spec's running maximum `max(value_1 .. value_t)` through date `t`
(0-indexed: the maximum of the first `t + 1` values). -/
noncomputable def spec_running_max (p : List ℝ) (t : ℕ) : ℝ :=
  list_max (p.take (t + 1))

/-- The spec's per-date drawdown series
`value_t / running_max(value_1..value_t) − 1`. -/
noncomputable def spec_drawdown_series (p : List ℝ) : List ℝ :=
  (List.range p.length).map (fun t => p.getD t 0 / spec_running_max p t - 1)

/-- The spec's maximum drawdown: the minimum of the drawdown series. -/
noncomputable def spec_max_drawdown (p : List ℝ) : ℝ :=
  list_min (spec_drawdown_series p)

/-- The code's drawdown series is exactly the spec's. -/
theorem drawdowns_eq_spec (p : List ℝ) :
    drawdowns p = spec_drawdown_series p := by
  apply List.ext_getElem
  · rw [drawdowns_length]
    simp [spec_drawdown_series]
  · intro i h1 h2
    have hip : i < p.length := by rw [drawdowns_length] at h1; exact h1
    rw [← List.getD_eq_getElem _ 0 h1, drawdowns_getD p i hip]
    simp only [spec_drawdown_series, List.getElem_map, List.getElem_range]
    rw [spec_running_max, ← cummax_getD p i hip]

theorem series_min_eq (l : List ℝ) (hl : l ≠ []) :
    series_min l = some (list_min l) := by
  match l, hl with
  | x :: xs, _ => rfl

theorem map_max_of_le (x : ℝ) :
    ∀ l : List ℝ, (∀ y ∈ l, x ≤ y) → l.map (max x) = l := by
  intro l
  induction l with
  | nil => intro _; rfl
  | cons c cs ih =>
    intro hall
    simp only [List.map_cons]
    rw [max_eq_right (hall c (by simp)),
      ih (fun y hy => hall y (List.mem_cons_of_mem _ hy))]

/-- On a non-decreasing series the running maximum is the series itself. -/
theorem cummax_of_chain (p : List ℝ) (h : List.Chain' (· ≤ ·) p) :
    cummax p = p := by
  induction p with
  | nil => rfl
  | cons x xs ih =>
    show x :: (cummax xs).map (max x) = x :: xs
    rw [ih h.tail]
    congr 1
    apply map_max_of_le
    intro y hy
    have hp := List.chain'_iff_pairwise.mp h
    exact (List.pairwise_cons.mp hp).1 y hy

theorem foldl_min_zero (xs : List ℝ) :
    (∀ x ∈ xs, x = 0) → xs.foldl min 0 = 0 := by
  induction xs with
  | nil => intro _; rfl
  | cons c cs ih =>
    intro h
    simp only [List.foldl_cons]
    rw [h c (by simp), min_self]
    exact ih fun x hx => h x (List.mem_cons_of_mem _ hx)

theorem list_min_all_zero (l : List ℝ) (hl : l ≠ [])
    (h : ∀ x ∈ l, x = 0) : list_min l = 0 := by
  match l, hl with
  | x :: xs, _ =>
    show xs.foldl min x = 0
    rw [h x (by simp)]
    exact foldl_min_zero xs fun y hy => h y (List.mem_cons_of_mem _ hy)

/-- C8: on a nonempty series of positive values, the max drawdown the code
returns is the minimum over all dates of
`value_t / max(value_1..value_t) − 1`; it is always ≤ 0, and it is 0
exactly when the series is monotonically non-decreasing. -/
theorem C8_max_drawdown (p : List ℝ) (hne : p ≠ [])
    (hpos : ∀ x ∈ p, 0 < x) :
    ∃ r, calculate_metrics p = some r ∧
      r.max_drawdown = spec_max_drawdown p ∧
      r.max_drawdown ≤ 0 ∧
      (r.max_drawdown = 0 ↔ List.Chain' (· ≤ ·) p) := by
  match p, hne with
  | v0 :: rest, _ =>
    have hdne : drawdowns (v0 :: rest) ≠ [] := by
      intro hcon
      have hl := drawdowns_length (v0 :: rest)
      rw [hcon] at hl
      simp at hl
    have hmd : (series_min (drawdowns (v0 :: rest))).getD 0 =
        list_min (drawdowns (v0 :: rest)) := by
      rw [series_min_eq _ hdne, Option.getD_some]
    have h00 : (drawdowns (v0 :: rest)).getD 0 0 = 0 := by
      rw [drawdowns_getD _ 0 (by simp)]
      show v0 / v0 - 1 = 0
      rw [div_self (ne_of_gt (hpos v0 (by simp))), sub_self]
    have hmem0 : (0 : ℝ) ∈ drawdowns (v0 :: rest) := by
      have hlt : 0 < (drawdowns (v0 :: rest)).length := by
        rw [drawdowns_length]
        simp
      have := List.getElem_mem hlt
      rwa [← List.getD_eq_getElem _ 0 hlt, h00] at this
    refine ⟨_, rfl, ?_, ?_, ?_⟩
    · show (series_min (drawdowns (v0 :: rest))).getD 0 = _
      rw [hmd, spec_max_drawdown, drawdowns_eq_spec]
    · show (series_min (drawdowns (v0 :: rest))).getD 0 ≤ 0
      rw [hmd]
      exact list_min_le _ 0 hmem0
    · show (series_min (drawdowns (v0 :: rest))).getD 0 = 0 ↔ _
      rw [hmd]
      constructor
      · intro hzero
        rw [List.chain'_iff_get]
        intro i hi
        have hi1 : i + 1 < (v0 :: rest).length := by omega
        have hi0 : i < (v0 :: rest).length := by omega
        have hd : (drawdowns (v0 :: rest)).getD (i + 1) 0 =
            (v0 :: rest).getD (i + 1) 0 /
              (cummax (v0 :: rest)).getD (i + 1) 0 - 1 :=
          drawdowns_getD _ (i + 1) hi1
        have hM : (cummax (v0 :: rest)).getD (i + 1) 0 =
            list_max ((v0 :: rest).take (i + 2)) :=
          cummax_getD _ (i + 1) hi1
        have hmemd : (drawdowns (v0 :: rest)).getD (i + 1) 0 ∈
            drawdowns (v0 :: rest) := by
          have hlt : i + 1 < (drawdowns (v0 :: rest)).length := by
            rw [drawdowns_length]
            exact hi1
          rw [List.getD_eq_getElem _ 0 hlt]
          exact List.getElem_mem hlt
        have hge : (0 : ℝ) ≤ (drawdowns (v0 :: rest)).getD (i + 1) 0 := by
          have hle := list_min_le _ _ hmemd
          rw [hzero] at hle
          exact hle
        have hmem1 : (v0 :: rest).getD (i + 1) 0 ∈
            (v0 :: rest).take (i + 2) := by
          have hlt : i + 1 < ((v0 :: rest).take (i + 2)).length := by
            rw [List.length_take]
            omega
          have hmem := List.getElem_mem hlt
          rw [List.getElem_take] at hmem
          rw [List.getD_eq_getElem _ 0 hi1]
          exact hmem
        have hmem2 : (v0 :: rest).getD i 0 ∈ (v0 :: rest).take (i + 2) := by
          have hlt : i < ((v0 :: rest).take (i + 2)).length := by
            rw [List.length_take]
            omega
          have hmem := List.getElem_mem hlt
          rw [List.getElem_take] at hmem
          rw [List.getD_eq_getElem _ 0 hi0]
          exact hmem
        have hvpos : 0 < (v0 :: rest).getD (i + 1) 0 := by
          apply hpos
          rw [List.getD_eq_getElem _ 0 hi1]
          exact List.getElem_mem hi1
        have hMpos : 0 < list_max ((v0 :: rest).take (i + 2)) :=
          lt_of_lt_of_le hvpos (le_list_max _ _ hmem1)
        have hone : (1 : ℝ) ≤ (v0 :: rest).getD (i + 1) 0 /
            list_max ((v0 :: rest).take (i + 2)) := by
          have := hge
          rw [hd, hM] at this
          linarith
        have hMle : list_max ((v0 :: rest).take (i + 2)) ≤
            (v0 :: rest).getD (i + 1) 0 :=
          (one_le_div hMpos).mp hone
        have hile : (v0 :: rest).getD i 0 ≤
            list_max ((v0 :: rest).take (i + 2)) :=
          le_list_max _ _ hmem2
        rw [List.get_eq_getElem, List.get_eq_getElem,
          ← List.getD_eq_getElem _ 0, ← List.getD_eq_getElem _ 0]
        exact le_trans hile hMle
      · intro hchain
        have hcm := cummax_of_chain _ hchain
        have hdd : drawdowns (v0 :: rest) =
            (v0 :: rest).map (fun v => v / v - 1) := by
          rw [show drawdowns (v0 :: rest) =
            List.zipWith (fun v m => v / m - 1) (v0 :: rest)
              (cummax (v0 :: rest)) from rfl, hcm, List.zipWith_same]
        rw [hdd]
        apply list_min_all_zero
        · simp
        · intro x hx
          rcases List.mem_map.mp hx with ⟨v, hv, rfl⟩
          rw [div_self (ne_of_gt (hpos v hv)), sub_self]

/-- Concrete run of C8 on the spec's scenario-1 portfolio values. -/
theorem C8_max_drawdown_witness :
    (([(10000 : ℝ), 11000, 9450] : List ℝ) ≠ [] ∧
      (∀ x ∈ ([(10000 : ℝ), 11000, 9450] : List ℝ), 0 < x)) ∧
    (∃ r, calculate_metrics [(10000 : ℝ), 11000, 9450] = some r ∧
      r.max_drawdown = spec_max_drawdown [(10000 : ℝ), 11000, 9450] ∧
      r.max_drawdown ≤ 0 ∧
      (r.max_drawdown = 0 ↔
        List.Chain' (· ≤ ·) [(10000 : ℝ), 11000, 9450])) :=
  ⟨⟨by simp, by intro x hx; simp only [List.mem_cons,
      List.not_mem_nil, or_false] at hx; rcases hx with rfl | rfl | rfl <;>
      norm_num⟩,
    C8_max_drawdown [10000, 11000, 9450] (by simp)
      (by intro x hx; simp only [List.mem_cons, List.not_mem_nil,
        or_false] at hx; rcases hx with rfl | rfl | rfl <;> norm_num)⟩

end CrisisInvestment
